import Mathlib

/-!
Shallow embedding of `src/pymarket/algorithms.py` (functions `alg_01` and
`alg_02`) over exact rational arithmetic, together with proofs about the
behaviour of the two simulation engines.

Conventions:
* Python floats are modelled as `ℚ`.
* A price series is a `List ℚ`, index `0` being the most recent price
  (as supplied by the data provider); `getD i 0` models positional
  indexing `series[i]` / `series.iloc[i]`.
* A failed `assert` is modelled as `Err.invalidParameter` (the spec's
  `InvalidParameter`); indexing an empty list (`lst[0]` in Python) as
  `Err.indexError`.
* The Python `for i in range(s-2, -1, -1)` loop is modelled by a fuel
  recursion `loop… n st` that processes index `n-1` first and recurses
  down to index `0`; the engines start it with fuel `s - 1`.
-/

/-- Errors a simulation call can raise: a failed `assert` (the spec's
`InvalidParameter`) or a Python `IndexError` from indexing an empty list. -/
inductive Err where
  | invalidParameter
  | indexError
deriving DecidableEq

deriving instance DecidableEq for Except

/-- Loop state of `alg_01`: the two valuations, the running extrema of the
stock price, and the two remaining (already normalized) percentage lists,
which the algorithm consumes destructively from the front. -/
structure St01 where
  stockVal : ℚ
  bondVal : ℚ
  max : ℚ
  min : ℚ
  decr : List ℚ
  sell : List ℚ
deriving DecidableEq

/-- Loop state of `alg_02`: margin-stock valuation, available margin, the
running extrema of the price, and the remaining trigger list
(`decrease_percentages`, consumed from the front; `decrease_buys` is never
consumed by the source code). -/
structure St02 where
  mStockVal : ℚ
  margin : ℚ
  max : ℚ
  min : ℚ
  decrPerc : List ℚ
deriving DecidableEq

/-- `assert all([0 < x and x < 100 for x in l])` from the source. -/
def validPerc (l : List ℚ) : Bool :=
  l.all fun x => decide (0 < x ∧ x < 100)

/-- The inner `while` loop of `alg_01` (lines 96-101 of `algorithms.py`):
`while current_decrease > decr_perc[0]: sell_value = bond_val * sell_perc[0];
bond_val -= sell_value; stock_val += sell_value; decr_perc.pop(0);
sell_perc.pop(0)`.  Indexing an empty list raises `IndexError`. -/
def fire01 (currentDecrease : ℚ) (bondVal stockVal : ℚ) :
    List ℚ → List ℚ → Except Err (ℚ × ℚ × List ℚ × List ℚ)
  | [], _ => .error .indexError
  | t :: ds, sell =>
    if currentDecrease > t then
      match sell with
      | [] => .error .indexError
      | f :: ss =>
        let sellValue := bondVal * f
        fire01 currentDecrease (bondVal - sellValue) (stockVal + sellValue) ds ss
    else .ok (bondVal, stockVal, t :: ds, sell)

/-- One iteration of the `alg_01` loop body at index `i`
(lines 77-101 of `algorithms.py`). -/
def step01 (ss bs : List ℚ) (monthlyAddn : ℚ) (i : ℕ) (st : St01) :
    Except Err St01 :=
  let sv := st.stockVal * (ss.getD i 0 / ss.getD (i + 1) 0)
  let bv0 := st.bondVal * (bs.getD i 0 / bs.getD (i + 1) 0)
  let bv := if i % 25 = 0 then bv0 + monthlyAddn else bv0
  let mx := if ss.getD i 0 > st.max then ss.getD i 0 else st.max
  if ss.getD i 0 < st.min then
    match fire01 (1 - ss.getD i 0 / mx) bv sv st.decr st.sell with
    | .error e => .error e
    | .ok (b, s, d, se) => .ok ⟨s, b, mx, ss.getD i 0, d, se⟩
  else
    .ok ⟨sv, bv, mx, st.min, st.decr, st.sell⟩

/-- The `for i in range(s-2, -1, -1)` loop of `alg_01`: fuel `n` means the
next index to process is `n-1`; started with fuel `s-1`. -/
def loop01 (ss bs : List ℚ) (monthlyAddn : ℚ) : ℕ → St01 → Except Err St01
  | 0, st => .ok st
  | n + 1, st =>
    match step01 ss bs monthlyAddn n st with
    | .error e => .error e
    | .ok st' => loop01 ss bs monthlyAddn n st'

/-- Like `loop01` but collecting the state after every executed step, in
processing order, together with the error that stopped the loop, if any. -/
def loop01Trace (ss bs : List ℚ) (monthlyAddn : ℚ) :
    ℕ → St01 → List St01 × Option Err
  | 0, _ => ([], none)
  | n + 1, st =>
    match step01 ss bs monthlyAddn n st with
    | .error e => ([], some e)
    | .ok st' =>
      let r := loop01Trace ss bs monthlyAddn n st'
      (st' :: r.1, r.2)

/-- Initial loop state of `alg_01` (lines 69-73): both extrema start at the
oldest price `stock_series[s-1]`. -/
def init01 (ss : List ℚ) (stockVal bondVal : ℚ) (d se : List ℚ) : St01 :=
  ⟨stockVal, bondVal, ss.getD (ss.length - 1) 0, ss.getD (ss.length - 1) 0, d, se⟩

/-- `alg_01` up to (but excluding) the final `port_change` formula: the four
`assert`s, normalization of the percentage lists by 100, and the main loop;
returns the final loop state. -/
def alg01Run (ss bs : List ℚ) (stockVal bondVal : ℚ)
    (decrPerc sellPerc : List ℚ) (monthlyAddn : ℚ) : Except Err St01 :=
  if validPerc decrPerc ∧ validPerc sellPerc
      ∧ decrPerc.length = sellPerc.length
      ∧ ss.length = bs.length then
    loop01 ss bs monthlyAddn (ss.length - 1)
      (init01 ss stockVal bondVal
        (decrPerc.map fun x => x / 100) (sellPerc.map fun x => x / 100))
  else .error .invalidParameter

/-- `alg_01` from `src/pymarket/algorithms.py`:
returns `fin_port_val / init_port_val - 1`. -/
def alg_01 (ss bs : List ℚ) (stockVal bondVal : ℚ)
    (decrPerc sellPerc : List ℚ) (monthlyAddn : ℚ) : Except Err ℚ :=
  (alg01Run ss bs stockVal bondVal decrPerc sellPerc monthlyAddn).map
    fun st => (st.stockVal + st.bondVal) / (stockVal + bondVal) - 1

/-- `alg_01` with the per-step state trace exposed (validation included). -/
def alg01Trace (ss bs : List ℚ) (stockVal bondVal : ℚ)
    (decrPerc sellPerc : List ℚ) (monthlyAddn : ℚ) : List St01 × Option Err :=
  if validPerc decrPerc ∧ validPerc sellPerc
      ∧ decrPerc.length = sellPerc.length
      ∧ ss.length = bs.length then
    loop01Trace ss bs monthlyAddn (ss.length - 1)
      (init01 ss stockVal bondVal
        (decrPerc.map fun x => x / 100) (sellPerc.map fun x => x / 100))
  else ([], some .invalidParameter)

/-- The inner `while` loop of `alg_02` (lines 203-206 of `algorithms.py`):
`while current_decrease > decrease_percentages[0]: m_stock_val +=
decrease_buys[0] * margin / 100.0; margin -= m_stock_val;
decrease_percentages.pop(0)`.  Note that the source pops only
`decrease_percentages`; `decrease_buys` is left untouched, so every firing
reads `decrease_buys[0]`.  Indexing an empty list raises `IndexError`. -/
def fire02 (currentDecrease : ℚ) (decreaseBuys : List ℚ) (mStockVal margin : ℚ) :
    List ℚ → Except Err (ℚ × ℚ × List ℚ)
  | [] => .error .indexError
  | t :: ds =>
    if currentDecrease > t then
      match decreaseBuys with
      | [] => .error .indexError
      | b :: _ =>
        let m := mStockVal + b * margin / 100
        fire02 currentDecrease decreaseBuys m (margin - m) ds
    else .ok (mStockVal, margin, t :: ds)

/-- One iteration of the `alg_02` loop body at index `i`
(lines 193-206 of `algorithms.py`). -/
def step02 (series decreaseBuys : List ℚ) (i : ℕ) (st : St02) :
    Except Err St02 :=
  let mx := if series.getD i 0 > st.max then series.getD i 0 else st.max
  if series.getD i 0 < st.min then
    match fire02 ((mx - series.getD i 0) / mx) decreaseBuys
        st.mStockVal st.margin st.decrPerc with
    | .error e => .error e
    | .ok (m, mg, d) => .ok ⟨m, mg, mx, series.getD i 0, d⟩
  else
    .ok ⟨st.mStockVal, st.margin, mx, st.min, st.decrPerc⟩

/-- The `for i in range(s-2, -1, -1)` loop of `alg_02`. -/
def loop02 (series decreaseBuys : List ℚ) : ℕ → St02 → Except Err St02
  | 0, st => .ok st
  | n + 1, st =>
    match step02 series decreaseBuys n st with
    | .error e => .error e
    | .ok st' => loop02 series decreaseBuys n st'

/-- Like `loop02` but collecting the state after every executed step. -/
def loop02Trace (series decreaseBuys : List ℚ) :
    ℕ → St02 → List St02 × Option Err
  | 0, _ => ([], none)
  | n + 1, st =>
    match step02 series decreaseBuys n st with
    | .error e => ([], some e)
    | .ok st' =>
      let r := loop02Trace series decreaseBuys n st'
      (st' :: r.1, r.2)

/-- Initial loop state of `alg_02` (lines 185-190): both extrema start at
the oldest price `series[s-1]`, the margin-stock valuation at `0`. -/
def init02 (series : List ℚ) (margin : ℚ) (decrPerc : List ℚ) : St02 :=
  ⟨0, margin, series.getD (series.length - 1) 0, series.getD (series.length - 1) 0,
    decrPerc⟩

/-- `alg_02` from `src/pymarket/algorithms.py`: the four `assert`s, the list
copies, and the main loop.  The Python function falls off its end (returns
`None`); this embedding returns the final loop state, which is what the
claims speak about.  `marginRate`, `increasePerc` and `increaseSells` are
parameters of the source function that its body never uses after
validation. -/
def alg_02 (series : List ℚ) (marginRate margin : ℚ)
    (decreasePerc decreaseBuys increasePerc increaseSells : List ℚ) :
    Except Err St02 :=
  if validPerc decreasePerc ∧ validPerc decreaseBuys
      ∧ validPerc increasePerc ∧ validPerc increaseSells then
    loop02 series decreaseBuys (series.length - 1)
      (init02 series margin decreasePerc)
  else .error .invalidParameter

/-- `alg_02` with the per-step state trace exposed (validation included). -/
def alg02Trace (series : List ℚ) (marginRate margin : ℚ)
    (decreasePerc decreaseBuys increasePerc increaseSells : List ℚ) :
    List St02 × Option Err :=
  if validPerc decreasePerc ∧ validPerc decreaseBuys
      ∧ validPerc increasePerc ∧ validPerc increaseSells then
    loop02Trace series decreaseBuys (series.length - 1)
      (init02 series margin decreasePerc)
  else ([], some .invalidParameter)

/-- One step of the buy-and-hold evolution described by the spec: each
valuation is scaled by its raw price ratio, and the fixed contribution is
added to the bond valuation on indices that are multiples of 25.  Follows
the spec's words; used to compare against the no-fire behaviour of
`alg_01`. -/
def buyHoldStep (ss bs : List ℚ) (monthlyAddn : ℚ) (i : ℕ) (p : ℚ × ℚ) :
    ℚ × ℚ :=
  let sv := p.1 * (ss.getD i 0 / ss.getD (i + 1) 0)
  let bv := p.2 * (bs.getD i 0 / bs.getD (i + 1) 0)
  (sv, if i % 25 = 0 then bv + monthlyAddn else bv)

/-- Buy-and-hold evolution of the (stock, bond) valuations over the steps
`n-1, …, 0`, following the spec's words. -/
def buyHold (ss bs : List ℚ) (monthlyAddn : ℚ) : ℕ → ℚ × ℚ → ℚ × ℚ
  | 0, p => p
  | n + 1, p => buyHold ss bs monthlyAddn n (buyHoldStep ss bs monthlyAddn n p)

/-- The running-maximum fold that `alg_01` performs on the stock series over
the steps `n-1, …, 0`. -/
def maxFold (ss : List ℚ) : ℕ → ℚ → ℚ
  | 0, mx => mx
  | n + 1, mx => maxFold ss n (if ss.getD n 0 > mx then ss.getD n 0 else mx)

/-- A positive-entry list has positive `getD` values at in-range indices. -/
theorem getD_pos_of_forall_pos {l : List ℚ} (hl : ∀ x ∈ l, 0 < x)
    {i : ℕ} (hi : i < l.length) : 0 < l.getD i 0 := by
  rw [List.getD_eq_getElem l 0 hi]
  exact hl _ (List.getElem_mem hi)

/-- A no-fire step of `alg_01`: when the current price is not a new minimum,
the step only applies the price ratios, the contribution, and the
running-maximum update. -/
theorem step01_noFire {ss bs : List ℚ} {addn : ℚ} {i : ℕ} {st : St01}
    (h : ¬ ss.getD i 0 < st.min) :
    step01 ss bs addn i st =
      .ok ⟨(buyHoldStep ss bs addn i (st.stockVal, st.bondVal)).1,
           (buyHoldStep ss bs addn i (st.stockVal, st.bondVal)).2,
           if ss.getD i 0 > st.max then ss.getD i 0 else st.max,
           st.min, st.decr, st.sell⟩ := by
  simp only [step01, buyHoldStep, if_neg h]

/-- A successful `alg_01` step moves the running maximum up (weakly), the
running minimum down (weakly), preserves `min ≤ max`, and preserves
positivity of the minimum when the current price is positive. -/
theorem step01_mono {ss bs : List ℚ} {addn : ℚ} {i : ℕ} {st st' : St01}
    (h : step01 ss bs addn i st = .ok st') :
    st.max ≤ st'.max ∧ st'.min ≤ st.min
      ∧ (st.min ≤ st.max → st'.min ≤ st'.max)
      ∧ (0 < st.min → 0 < ss.getD i 0 → 0 < st'.min) := by
  have hmx : st.max ≤ (if ss.getD i 0 > st.max then ss.getD i 0 else st.max) := by
    split
    · exact le_of_lt (by assumption)
    · exact le_rfl
  have hple : ss.getD i 0 ≤ (if ss.getD i 0 > st.max then ss.getD i 0 else st.max) := by
    split
    · exact le_rfl
    · exact le_of_not_lt (by assumption)
  simp only [step01] at h
  split at h
  · split at h
    · exact absurd h (by simp)
    · cases h
      exact ⟨hmx, le_of_lt ‹ss.getD i 0 < st.min›, fun _ => hple, fun _ hp => hp⟩
  · cases h
    exact ⟨hmx, le_rfl, fun hm => hm.trans hmx, fun hm _ => hm⟩

/-- A successful `alg_02` step moves the running maximum up (weakly), the
running minimum down (weakly), preserves `min ≤ max`, and preserves
positivity of the minimum when the current price is positive. -/
theorem step02_mono {series db : List ℚ} {i : ℕ} {st st' : St02}
    (h : step02 series db i st = .ok st') :
    st.max ≤ st'.max ∧ st'.min ≤ st.min
      ∧ (st.min ≤ st.max → st'.min ≤ st'.max)
      ∧ (0 < st.min → 0 < series.getD i 0 → 0 < st'.min) := by
  have hmx : st.max ≤ (if series.getD i 0 > st.max then series.getD i 0 else st.max) := by
    split
    · exact le_of_lt (by assumption)
    · exact le_rfl
  have hple : series.getD i 0
      ≤ (if series.getD i 0 > st.max then series.getD i 0 else st.max) := by
    split
    · exact le_rfl
    · exact le_of_not_lt (by assumption)
  simp only [step02] at h
  split at h
  · split at h
    · exact absurd h (by simp)
    · cases h
      exact ⟨hmx, le_of_lt ‹series.getD i 0 < st.min›, fun _ => hple, fun _ hp => hp⟩
  · cases h
    exact ⟨hmx, le_rfl, fun hm => hm.trans hmx, fun hm _ => hm⟩

/-- Along every `alg_01` traversal with positive stock prices, every reached
state keeps `0 < min` and `min ≤ max`, and from one state to the next the
running maximum never decreases and the running minimum never increases. -/
theorem trace01_inv (ss bs : List ℚ) (addn : ℚ) :
    ∀ (n : ℕ) (st : St01), 0 < st.min → st.min ≤ st.max →
      (∀ i, i < n → 0 < ss.getD i 0) →
      (∀ st' ∈ (loop01Trace ss bs addn n st).1, 0 < st'.min ∧ st'.min ≤ st'.max)
        ∧ List.Chain' (fun a b => a.max ≤ b.max ∧ b.min ≤ a.min)
            (st :: (loop01Trace ss bs addn n st).1) := by
  intro n
  induction n with
  | zero => intro st h1 h2 _; simp [loop01Trace]
  | succ n ih =>
    intro st h1 h2 hpos
    rw [loop01Trace]
    cases hst : step01 ss bs addn n st with
    | error e => simp
    | ok st' =>
      obtain ⟨hmx, hmn, hle, hp⟩ := step01_mono hst
      have h1' : 0 < st'.min := hp h1 (hpos n (Nat.lt_succ_self n))
      have h2' : st'.min ≤ st'.max := hle h2
      have IH := ih st' h1' h2' fun i hi => hpos i (hi.trans (Nat.lt_succ_self n))
      constructor
      · intro x hx
        simp only [List.mem_cons] at hx
        rcases hx with rfl | hx
        · exact ⟨h1', h2'⟩
        · exact IH.1 x hx
      · exact List.chain'_cons.2 ⟨⟨hmx, hmn⟩, IH.2⟩

/-- Along every `alg_02` traversal with positive prices, every reached state
keeps `0 < min` and `min ≤ max`, and from one state to the next the running
maximum never decreases and the running minimum never increases. -/
theorem trace02_inv (series db : List ℚ) :
    ∀ (n : ℕ) (st : St02), 0 < st.min → st.min ≤ st.max →
      (∀ i, i < n → 0 < series.getD i 0) →
      (∀ st' ∈ (loop02Trace series db n st).1, 0 < st'.min ∧ st'.min ≤ st'.max)
        ∧ List.Chain' (fun a b => a.max ≤ b.max ∧ b.min ≤ a.min)
            (st :: (loop02Trace series db n st).1) := by
  intro n
  induction n with
  | zero => intro st h1 h2 _; simp [loop02Trace]
  | succ n ih =>
    intro st h1 h2 hpos
    rw [loop02Trace]
    cases hst : step02 series db n st with
    | error e => simp
    | ok st' =>
      obtain ⟨hmx, hmn, hle, hp⟩ := step02_mono hst
      have h1' : 0 < st'.min := hp h1 (hpos n (Nat.lt_succ_self n))
      have h2' : st'.min ≤ st'.max := hle h2
      have IH := ih st' h1' h2' fun i hi => hpos i (hi.trans (Nat.lt_succ_self n))
      constructor
      · intro x hx
        simp only [List.mem_cons] at hx
        rcases hx with rfl | hx
        · exact ⟨h1', h2'⟩
        · exact IH.1 x hx
      · exact List.chain'_cons.2 ⟨⟨hmx, hmn⟩, IH.2⟩

/-- When no traversed price falls strictly below the running minimum, the
`alg_01` loop never touches the ladder: it returns the buy-and-hold
evolution of the two valuations, with the extrema folded over the stock
prices and the ladder lists unchanged. -/
theorem loop01_noFire (ss bs : List ℚ) (addn : ℚ) :
    ∀ (n : ℕ) (sv bv mx mn : ℚ) (d se : List ℚ),
      (∀ i, i < n → mn ≤ ss.getD i 0) →
      loop01 ss bs addn n ⟨sv, bv, mx, mn, d, se⟩ =
        .ok ⟨(buyHold ss bs addn n (sv, bv)).1, (buyHold ss bs addn n (sv, bv)).2,
          maxFold ss n mx, mn, d, se⟩ := by
  intro n
  induction n with
  | zero => intro sv bv mx mn d se _; simp [loop01, buyHold, maxFold]
  | succ n ih =>
    intro sv bv mx mn d se h
    have hge : ¬ ss.getD n 0 < mn := not_lt.2 (h n (Nat.lt_succ_self n))
    rw [loop01]
    rw [@step01_noFire ss bs addn n ⟨sv, bv, mx, mn, d, se⟩ hge]
    rw [buyHold, maxFold]
    exact ih _ _ _ mn d se fun i hi => h i (hi.trans (Nat.lt_succ_self n))

/-- Telescoping: the stock leg of the buy-and-hold evolution over steps
`n-1, …, 0` is the initial value scaled by `ss[0] / ss[n]`. -/
theorem buyHold_fst (ss bs : List ℚ) (addn : ℚ) :
    ∀ (n : ℕ) (sv bv : ℚ), (∀ i, i ≤ n → ss.getD i 0 ≠ 0) →
      (buyHold ss bs addn n (sv, bv)).1 = sv * (ss.getD 0 0 / ss.getD n 0) := by
  intro n
  induction n with
  | zero =>
    intro sv bv h
    rw [buyHold, div_self (h 0 le_rfl), mul_one]
  | succ n ih =>
    intro sv bv h
    rw [buyHold, buyHoldStep]
    have ihx := ih (sv * (ss.getD n 0 / ss.getD (n + 1) 0))
      (if n % 25 = 0 then bv * (bs.getD n 0 / bs.getD (n + 1) 0) + addn
        else bv * (bs.getD n 0 / bs.getD (n + 1) 0))
      fun i hi => h i (hi.trans (Nat.le_succ n))
    rw [ihx]
    have hn : ss.getD n 0 ≠ 0 := h n (Nat.le_succ n)
    rw [mul_assoc, div_mul_div_comm, mul_comm (ss.getD (n + 1) 0) (ss.getD n 0),
      mul_div_mul_left _ _ hn]

/-- Telescoping, bond leg, no contributions: with `monthly_addn = 0` the
bond leg of the buy-and-hold evolution over steps `n-1, …, 0` is the
initial value scaled by `bs[0] / bs[n]`. -/
theorem buyHold_snd_zero (ss bs : List ℚ) :
    ∀ (n : ℕ) (sv bv : ℚ), (∀ i, i ≤ n → bs.getD i 0 ≠ 0) →
      (buyHold ss bs 0 n (sv, bv)).2 = bv * (bs.getD 0 0 / bs.getD n 0) := by
  intro n
  induction n with
  | zero =>
    intro sv bv h
    rw [buyHold, div_self (h 0 le_rfl), mul_one]
  | succ n ih =>
    intro sv bv h
    rw [buyHold, buyHoldStep]
    simp only [add_zero, ite_self]
    have ihx := ih (sv * (ss.getD n 0 / ss.getD (n + 1) 0))
      (bv * (bs.getD n 0 / bs.getD (n + 1) 0))
      fun i hi => h i (hi.trans (Nat.le_succ n))
    rw [ihx]
    have hn : bs.getD n 0 ≠ 0 := h n (Nat.le_succ n)
    rw [mul_assoc, div_mul_div_comm, mul_comm (bs.getD (n + 1) 0) (bs.getD n 0),
      mul_div_mul_left _ _ hn]

/-- C1: if any value of `decr_perc` or `sell_perc` lies outside the open
interval (0,100), or the two percentage lists have unequal length, or the
two price series have unequal length, then `alg_01` fails with
`InvalidParameter` and nothing else is computed: the call's entire result
is that error. -/
theorem C1_invalid_parameter_rejected (ss bs : List ℚ) (sv bv : ℚ)
    (dp sp : List ℚ) (addn : ℚ)
    (h : (∃ x ∈ dp, ¬(0 < x ∧ x < 100)) ∨ (∃ x ∈ sp, ¬(0 < x ∧ x < 100))
      ∨ dp.length ≠ sp.length ∨ ss.length ≠ bs.length) :
    alg_01 ss bs sv bv dp sp addn = .error .invalidParameter := by
  have hc : ¬((validPerc dp = true) ∧ (validPerc sp = true)
      ∧ dp.length = sp.length ∧ ss.length = bs.length) := by
    simp only [validPerc, List.all_eq_true, decide_eq_true_eq]
    rintro ⟨h1, h2, h3, h4⟩
    rcases h with ⟨x, hx, hnx⟩ | ⟨x, hx, hnx⟩ | hne | hne
    · exact hnx (h1 x hx)
    · exact hnx (h2 x hx)
    · exact hne h3
    · exact hne h4
  rw [alg_01, alg01Run, if_neg hc]
  rfl

/-- C1 witness: `decr_perc = [150]` (Scenario C) is rejected. -/
theorem C1_witness :
    alg_01 [1, 2] [1, 2] 1 1 [150] [10] 0 = .error .invalidParameter :=
  C1_invalid_parameter_rejected [1, 2] [1, 2] 1 1 [150] [10] 0
    (Or.inl ⟨150, by norm_num⟩)

/-- C2: the claim states that after the ladder is fully depleted further
new-minimum events produce no action and no error.  The code instead
raises `IndexError` at the very event that depletes the ladder: the
`while` condition re-indexes the now-empty `decr_perc` list.  Evaluation
at such an input: a 10% drawdown fires the single entry `(5%, 10%)` and
the run then crashes instead of completing. -/
theorem C2_depletion_raises_index_error :
    alg_01 [90, 100] [50, 50] 1000 1000 [5] [10] 0 = .error .indexError := by
  norm_num [alg_01, alg01Run, loop01, step01, fire01, init01, validPerc, Except.map]

/-- C3 counterexample: with both threshold lists empty, a series that dips
below its oldest price makes `alg_01` index the empty ladder and raise
`IndexError`; the run returns no value at all, so it does not return the
buy-and-hold value (which would be `.ok (-1/20)` here). -/
theorem C3_counterexample :
    alg_01 [90, 100] [50, 50] 1000 1000 [] [] 0 = .error .indexError
      ∧ (Except.error Err.indexError : Except Err ℚ) ≠ .ok (-1/20) := by
  constructor
  · norm_num [alg_01, alg01Run, loop01, step01, fire01, init01, validPerc, Except.map]
  · simp

/-- C3 (amended): for every valid input with empty threshold lists whose
stock series never falls strictly below its oldest (first-traversed)
price — so that no new-minimum event ever indexes the empty ladder — the
Rebalance Engine returns exactly the buy-and-hold return of the combined
valuation under the raw price ratios: the result is
`(stock leg + bond leg) / (stock_val + bond_val) - 1` of the buy-and-hold
evolution, the stock leg telescopes to `stock_val * (ss[0] / ss[s-1])`,
and with zero contributions the bond leg telescopes to
`bond_val * (bs[0] / bs[s-1])`. -/
theorem C3_empty_ladder_buy_and_hold (ss bs : List ℚ) (sv bv addn : ℚ)
    (hlen : ss.length = bs.length) (hne : 0 < ss.length)
    (hs : ∀ x ∈ ss, 0 < x) (hb : ∀ x ∈ bs, 0 < x)
    (hnd : ∀ i, i < ss.length → ss.getD (ss.length - 1) 0 ≤ ss.getD i 0) :
    alg_01 ss bs sv bv [] [] addn =
      .ok (((buyHold ss bs addn (ss.length - 1) (sv, bv)).1
            + (buyHold ss bs addn (ss.length - 1) (sv, bv)).2) / (sv + bv) - 1)
    ∧ (buyHold ss bs addn (ss.length - 1) (sv, bv)).1
        = sv * (ss.getD 0 0 / ss.getD (ss.length - 1) 0)
    ∧ (buyHold ss bs 0 (ss.length - 1) (sv, bv)).2
        = bv * (bs.getD 0 0 / bs.getD (bs.length - 1) 0) := by
  have hsz : ∀ i, i ≤ ss.length - 1 → ss.getD i 0 ≠ 0 := by
    intro i hi
    exact ne_of_gt (getD_pos_of_forall_pos hs (lt_of_le_of_lt hi (Nat.pred_lt hne.ne')))
  have hbz : ∀ i, i ≤ ss.length - 1 → bs.getD i 0 ≠ 0 := by
    intro i hi
    refine ne_of_gt (getD_pos_of_forall_pos hb ?_)
    rw [← hlen]
    exact lt_of_le_of_lt hi (Nat.pred_lt hne.ne')
  refine ⟨?_, buyHold_fst ss bs addn _ sv bv hsz, ?_⟩
  · have hcond : (validPerc [] = true) ∧ (validPerc [] = true)
        ∧ ([] : List ℚ).length = ([] : List ℚ).length ∧ ss.length = bs.length :=
      ⟨rfl, rfl, rfl, hlen⟩
    rw [alg_01, alg01Run, if_pos hcond]
    simp only [List.map_nil, init01]
    rw [loop01_noFire ss bs addn (ss.length - 1) sv bv _ _ [] []
      fun i hi => hnd i (hi.trans (Nat.pred_lt hne.ne'))]
    rfl
  · rw [← hlen]
    exact buyHold_snd_zero ss bs _ sv bv hbz

/-- C3 witness: a two-point rising series with empty threshold lists; the
theorem applies and the run returns the buy-and-hold value. -/
theorem C3_witness :
    alg_01 [110, 100] [50, 50] 1000 1000 [] [] 0 =
      .ok (((buyHold [110, 100] [50, 50] 0 1 (1000, 1000)).1
            + (buyHold [110, 100] [50, 50] 0 1 (1000, 1000)).2) / (1000 + 1000) - 1) :=
  (C3_empty_ladder_buy_and_hold [110, 100] [50, 50] 1000 1000 0 rfl (by norm_num)
    (by norm_num) (by norm_num)
    (by intro i hi
        simp only [List.length_cons, List.length_nil] at hi
        interval_cases i <;> norm_num [List.getD])).1

/-- C4: a drawdown magnitude exactly equal to the front trigger of the
ladder fires nothing, in either engine: the `while` comparisons on
lines 96 and 203 are strict. -/
theorem C4_equal_trigger_does_not_fire (t bond stock m mg : ℚ)
    (ds sell db : List ℚ) :
    fire01 t bond stock (t :: ds) sell = .ok (bond, stock, t :: ds, sell)
      ∧ fire02 t db m mg (t :: ds) = .ok (m, mg, t :: ds) := by
  constructor
  · simp only [fire01, if_neg (lt_irrefl t)]
  · simp only [fire02, if_neg (lt_irrefl t)]

set_option maxHeartbeats 4000000 in
set_option maxRecDepth 8000 in
/-- C5: on steps that are not new-minimum events the monthly contribution
is added to the bond valuation exactly when `i % 25 = 0`, and exactly once
(general conjunct); and in a 50-step constant run with `monthly_addn = 100`
and empty threshold lists the final bond value is `1000 + 2 * 100 = 1200`,
where comparing the per-step bond trace against the `monthly_addn = 0` run
shows the two contributions arriving exactly at the steps with index 25
(trace position 23) and index 0 (trace position 48). -/
theorem C5_monthly_contribution :
    (∀ (ss bs : List ℚ) (addn : ℚ) (i : ℕ) (st : St01), ¬ ss.getD i 0 < st.min →
      step01 ss bs addn i st =
        .ok ⟨st.stockVal * (ss.getD i 0 / ss.getD (i + 1) 0),
             st.bondVal * (bs.getD i 0 / bs.getD (i + 1) 0)
               + (if i % 25 = 0 then addn else 0),
             if ss.getD i 0 > st.max then ss.getD i 0 else st.max,
             st.min, st.decr, st.sell⟩)
    ∧ alg01Run (List.replicate 50 100) (List.replicate 50 50) 1000 1000 [] [] 100
        = .ok ⟨1000, 1200, 100, 100, [], []⟩
    ∧ ((alg01Trace (List.replicate 50 100) (List.replicate 50 50) 1000 1000 [] [] 100).1.map
          St01.bondVal).zipWith (fun a b => a - b)
        ((alg01Trace (List.replicate 50 100) (List.replicate 50 50) 1000 1000 [] [] 0).1.map
          St01.bondVal)
        = List.replicate 23 0 ++ List.replicate 25 100 ++ [200] := by
  refine ⟨?_, ?_, ?_⟩
  · intro ss bs addn i st h
    rw [step01_noFire h, buyHoldStep]
    by_cases hm : i % 25 = 0 <;> simp [hm]
  · norm_num [alg01Run, loop01, step01, init01, validPerc, List.replicate]
  · norm_num [alg01Trace, loop01Trace, step01, init01, validPerc, List.replicate]

/-- C5 witness: a no-minimum step at index 0 with contribution 7 adds the
contribution to the bond valuation exactly once. -/
theorem C5_witness :
    step01 [100, 100] [50, 50] 7 0 ⟨10, 20, 100, 100, [], []⟩ =
      .ok ⟨10 * ([(100:ℚ), 100].getD 0 0 / [(100:ℚ), 100].getD 1 0),
           20 * ([(50:ℚ), 50].getD 0 0 / [(50:ℚ), 50].getD 1 0) + 7,
           100, 100, [], []⟩ := by
  have h := C5_monthly_contribution.1 [100, 100] [50, 50] 7 0
    ⟨10, 20, 100, 100, [], []⟩ (by norm_num [List.getD])
  simpa [List.getD] using h

/-- C6: Scenario A.  The claim states the run fires once and returns the
hand-computed portfolio return; the code instead fires the single ladder
entry and then raises `IndexError`, because the `while` condition
re-indexes the emptied threshold list.  The run returns no value. -/
theorem C6_scenario_a_raises_index_error :
    alg_01 [100, 90, 100] [50, 50, 50] 1000 1000 [5] [10] 0 = .error .indexError := by
  norm_num [alg_01, alg01Run, loop01, step01, fire01, init01, validPerc, Except.map]

/-- C7: the claim states the k-th firing of the Margin Engine draws
`decrease_buys[k-1]`.  The code never pops `decrease_buys`, so every
firing draws `decrease_buys[0]`: in this run a 50% drop fires two entries,
and the second firing draws `50`% of the remaining margin (giving
margin-stock 75), not `decrease_buys[1] = 80`% (which would give 90). -/
theorem C7_margin_buys_never_popped :
    alg_02 [50, 100] 1 100 [1/10, 1/5, 3/5] [50, 80] [1] [1] =
      .ok ⟨75, -25, 100, 50, [3/5]⟩
    ∧ (75 : ℚ) ≠ 50 + 80 * 50 / 100 := by
  constructor
  · norm_num [alg_02, loop02, step02, fire02, init02, validPerc]
  · norm_num

/-- C8: a firing of the Margin Engine's decrease ladder adds
`action_fraction * margin / 100` (the fraction of the currently available
margin) to the margin-stock valuation, and then reduces the available
margin by the new cumulative margin-stock value — which differs from
reducing it by the single draw whenever margin-stock was nonzero. -/
theorem C8_margin_reduced_by_cumulative_value (cd t b m mg : ℚ)
    (ds bs' : List ℚ) (h : cd > t) (hm : m ≠ 0) :
    fire02 cd (b :: bs') m mg (t :: ds) =
      fire02 cd (b :: bs') (m + b * mg / 100) (mg - (m + b * mg / 100)) ds
    ∧ mg - (m + b * mg / 100) ≠ mg - b * mg / 100 := by
  constructor
  · simp only [fire02, if_pos h]
  · intro hcontra
    apply hm
    linarith

/-- C8 witness: one firing at drawdown 1/2 against trigger 1/4, draw
fraction 50, margin-stock 10, margin 100. -/
theorem C8_witness :
    fire02 (1/2) [50] 10 100 [1/4] =
      fire02 (1/2) [50] (10 + 50 * 100 / 100) (100 - (10 + 50 * 100 / 100)) []
    ∧ (100:ℚ) - (10 + 50 * 100 / 100) ≠ 100 - 50 * 100 / 100 :=
  C8_margin_reduced_by_cumulative_value (1/2) (1/4) 50 10 100 [] []
    (by norm_num) (by norm_num)

/-- C9: two Margin Engine calls that agree on the series, the margin and
the decrease-side lists, but differ in `margin_rate` and in the (valid)
increase-side lists, produce identical per-step state traces and identical
final states: `margin_rate` and the increase-side inputs never influence
the computation. -/
theorem C9_unused_inputs_noninterference (series : List ℚ)
    (mr mr' margin : ℚ) (dp db il sl il' sl' : List ℚ)
    (h1 : validPerc il = true) (h2 : validPerc sl = true)
    (h3 : validPerc il' = true) (h4 : validPerc sl' = true) :
    alg02Trace series mr margin dp db il sl
        = alg02Trace series mr' margin dp db il' sl'
    ∧ alg_02 series mr margin dp db il sl
        = alg_02 series mr' margin dp db il' sl' := by
  constructor <;> simp [alg02Trace, alg_02, h1, h2, h3, h4]

/-- C9 witness: changing `margin_rate` from 1 to 99 and the increase lists
from `[1], [2]` to `[3], [4]` leaves the trace unchanged. -/
theorem C9_witness :
    alg02Trace [50, 100] 1 100 [1/10] [50] [1] [2]
      = alg02Trace [50, 100] 99 100 [1/10] [50] [3] [4] :=
  (C9_unused_inputs_noninterference [50, 100] 1 99 100 [1/10] [50] [1] [2] [3] [4]
    (by norm_num [validPerc]) (by norm_num [validPerc])
    (by norm_num [validPerc]) (by norm_num [validPerc])).1

/-- C10: along every traversal of either engine the running maximum is
non-decreasing and the running minimum non-increasing from each state to
the next, every reached state keeps `0 < min` and `min ≤ max` (given
positive prices), both extrema are initialized to the same first-traversed
price, and for `0 < mn ≤ mx` the drawdown `1 - mn/mx` (equal to
`(mx - mn)/mx`, the form used by `alg_02`) lies in `[0, 1)` with a nonzero
divisor. -/
theorem C10_extrema_invariants :
    (∀ (ss bs : List ℚ) (addn : ℚ) (n : ℕ) (st : St01),
      0 < st.min → st.min ≤ st.max → (∀ i, i < n → 0 < ss.getD i 0) →
      (∀ st' ∈ (loop01Trace ss bs addn n st).1, 0 < st'.min ∧ st'.min ≤ st'.max)
        ∧ List.Chain' (fun a b => a.max ≤ b.max ∧ b.min ≤ a.min)
            (st :: (loop01Trace ss bs addn n st).1))
    ∧ (∀ (series db : List ℚ) (n : ℕ) (st : St02),
      0 < st.min → st.min ≤ st.max → (∀ i, i < n → 0 < series.getD i 0) →
      (∀ st' ∈ (loop02Trace series db n st).1, 0 < st'.min ∧ st'.min ≤ st'.max)
        ∧ List.Chain' (fun a b => a.max ≤ b.max ∧ b.min ≤ a.min)
            (st :: (loop02Trace series db n st).1))
    ∧ (∀ mx mn : ℚ, 0 < mn → mn ≤ mx →
        mx ≠ 0 ∧ 0 ≤ 1 - mn / mx ∧ 1 - mn / mx < 1 ∧ (mx - mn) / mx = 1 - mn / mx)
    ∧ (∀ (ss : List ℚ) (sv bv : ℚ) (d se : List ℚ),
        (init01 ss sv bv d se).max = (init01 ss sv bv d se).min)
    ∧ (∀ (series : List ℚ) (margin : ℚ) (dp : List ℚ),
        (init02 series margin dp).max = (init02 series margin dp).min) := by
  refine ⟨fun ss bs addn n st h1 h2 h3 => trace01_inv ss bs addn n st h1 h2 h3,
    fun series db n st h1 h2 h3 => trace02_inv series db n st h1 h2 h3,
    fun mx mn h1 h2 => ?_, fun _ _ _ _ _ => rfl, fun _ _ _ => rfl⟩
  have hmx : 0 < mx := h1.trans_le h2
  refine ⟨ne_of_gt hmx, ?_, ?_, ?_⟩
  · rw [sub_nonneg]
    exact (div_le_one hmx).2 h2
  · exact sub_lt_self 1 (div_pos h1 hmx)
  · rw [sub_div, div_self (ne_of_gt hmx)]

/-- C10 witness: a concrete two-step `alg_01` traversal with positive
prices; the first trace state keeps the extrema invariants and the chain
relation holds along the trace. -/
theorem C10_witness :
    0 < (⟨1000, 1000, 100, 100, [], []⟩ : St01).min ∧
    List.Chain' (fun a b => a.max ≤ b.max ∧ b.min ≤ a.min)
      ((⟨1000, 1000, 100, 100, [], []⟩ : St01) ::
        (loop01Trace [110, 100] [50, 50] 0 1 ⟨1000, 1000, 100, 100, [], []⟩).1) :=
  ⟨by norm_num,
    (C10_extrema_invariants.1 [110, 100] [50, 50] 0 1 ⟨1000, 1000, 100, 100, [], []⟩
      (by norm_num) (by norm_num)
      (by intro i hi
          have : i = 0 := by omega
          subst this
          norm_num [List.getD])).2⟩
